import Mathlib

/-!
Verification of the frequency response data (FRD) core of a control-systems
library (`control/frdata.py`).  The FRD model and its algebra are shallowly
embedded here: complex response samples become pairs of rationals, the
response tensor becomes a total function padded with junk outside its shape,
and every fallible operation returns `Except Err _`.
-/

set_option maxHeartbeats 1000000

/- Batteries marks the rational-number operations `@[irreducible]`, which
blocks `decide`-style evaluation of concrete frequency responses; restore
the usual reducibility (the kernel is unaffected by these attributes). -/
set_option allowUnsafeReducibility true in
attribute [semireducible] Rat.add Rat.mul Rat.inv Rat.sub Rat.blt Rat.ofScientific

namespace Control

/-- Complex numbers with rational components: the executable stand-in for the
complex floating-point samples stored in an FRD's `fresp` tensor. -/
structure CQ where
  re : ℚ
  im : ℚ
deriving DecidableEq

namespace CQ

instance : Zero CQ := ⟨⟨0, 0⟩⟩
instance : One CQ := ⟨⟨1, 0⟩⟩
instance : Add CQ := ⟨fun z w => ⟨z.re + w.re, z.im + w.im⟩⟩
instance : Mul CQ := ⟨fun z w => ⟨z.re * w.re - z.im * w.im, z.re * w.im + z.im * w.re⟩⟩
instance : Neg CQ := ⟨fun z => ⟨-z.re, -z.im⟩⟩
instance : Inv CQ := ⟨fun z => ⟨z.re / (z.re ^ 2 + z.im ^ 2), -z.im / (z.re ^ 2 + z.im ^ 2)⟩⟩
instance : Div CQ := ⟨fun z w => z * w⁻¹⟩

@[simp] theorem zero_re : (0 : CQ).re = 0 := rfl
@[simp] theorem zero_im : (0 : CQ).im = 0 := rfl
@[simp] theorem one_re : (1 : CQ).re = 1 := rfl
@[simp] theorem one_im : (1 : CQ).im = 0 := rfl
@[simp] theorem add_re (z w : CQ) : (z + w).re = z.re + w.re := rfl
@[simp] theorem add_im (z w : CQ) : (z + w).im = z.im + w.im := rfl
@[simp] theorem mul_re (z w : CQ) : (z * w).re = z.re * w.re - z.im * w.im := rfl
@[simp] theorem mul_im (z w : CQ) : (z * w).im = z.re * w.im + z.im * w.re := rfl
@[simp] theorem neg_re (z : CQ) : (-z).re = -z.re := rfl
@[simp] theorem neg_im (z : CQ) : (-z).im = -z.im := rfl

theorem ext' : ∀ {z w : CQ}, z.re = w.re → z.im = w.im → z = w
  | ⟨_, _⟩, ⟨_, _⟩, rfl, rfl => rfl

instance commRing : CommRing CQ where
  add := (· + ·)
  zero := 0
  neg := Neg.neg
  mul := (· * ·)
  one := 1
  add_assoc a b c := ext' (by simp; ring) (by simp; ring)
  zero_add a := ext' (by simp) (by simp)
  add_zero a := ext' (by simp) (by simp)
  add_comm a b := ext' (by simp; ring) (by simp; ring)
  neg_add_cancel a := ext' (by simp) (by simp)
  mul_assoc a b c := ext' (by simp; ring) (by simp; ring)
  one_mul a := ext' (by simp) (by simp)
  mul_one a := ext' (by simp) (by simp)
  left_distrib a b c := ext' (by simp; ring) (by simp; ring)
  right_distrib a b c := ext' (by simp; ring) (by simp; ring)
  zero_mul a := ext' (by simp) (by simp)
  mul_zero a := ext' (by simp) (by simp)
  mul_comm a b := ext' (by simp; ring) (by simp; ring)
  nsmul := nsmulRec
  zsmul := zsmulRec

end CQ

/-- Errors raised by the FRD algebra, mirroring the exceptions of
`frdata.py`.  Size-mismatch errors carry the actual counts reported in the
corresponding Python error messages. -/
inductive Err where
  /-- `NotImplementedError("Frequency ranges of FRD do not match, ...")` -/
  | gridMismatch
  /-- `ValueError("The first summand has %i input(s), but the second has %i.")` -/
  | sizeMismatchAddIn (selfIn otherIn : ℕ)
  /-- `ValueError("The first summand has %i output(s), but the second has %i.")` -/
  | sizeMismatchAddOut (selfOut otherOut : ℕ)
  /-- `ValueError("H = G1*G2: input-output size mismatch: G1 has %i input(s), G2 has %i output(s).")` -/
  | sizeMismatchMul (g1Inputs g2Outputs : ℕ)
  /-- `ValueError("FRD.feedback, inputs/outputs mismatch")` -/
  | fbMismatch
  /-- `ValueError("FRD.eval can only accept real-valued omega")` -/
  | realOmega
  /-- `ValueError("not all frequencies omega are in frequency list of FRD system. ...")` -/
  | notInList
  /-- `ValueError("__call__: FRD systems can only accept purely imaginary frequencies")` -/
  | purelyImag
  /-- `ValueError("Exponent must be an integer")` -/
  | expInt
  /-- `NotImplementedError("FRD.__truediv__ is currently only implemented for SISO systems.")` -/
  | sisoDiv
  /-- `numpy.linalg.LinAlgError` from `linalg.inv` on a singular matrix -/
  | singularMatrix
  /-- `TypeError("The frequency data constructor needs a 1-d or 3-d response data array and a matching frequency vector size")` -/
  | shapeMismatch
deriving DecidableEq

/-- Shallow embedding of `control.frdata.FrequencyResponseData`: the stored
frequency vector `omega`, the response tensor `fresp` (a total function on
indices, meaningful for `i < noutputs`, `j < ninputs`, `k < omega.length`),
and whether the interpolant state `ifunc` is present (`smooth`). -/
structure FrequencyResponseData where
  noutputs : ℕ
  ninputs : ℕ
  omega : List ℚ
  fresp : ℕ → ℕ → ℕ → CQ
  smooth : Bool

/-- `FRD` is an alias for the class, as in the source. -/
abbrev FRD := FrequencyResponseData

/-- Result array of `FRD.eval`: a complex tensor of shape
`(nout, nin, nfreq)`, again junk-padded outside its shape. -/
structure RArr where
  nout : ℕ
  nin : ℕ
  nfreq : ℕ
  dat : ℕ → ℕ → ℕ → CQ

/-- Extensional equality of FRDs: same shape, same frequency grid, same
smoothing state, and equal response entries inside the shape. -/
def FrequencyResponseData.equiv (a b : FRD) : Prop :=
  a.noutputs = b.noutputs ∧ a.ninputs = b.ninputs ∧ a.omega = b.omega ∧
    a.smooth = b.smooth ∧
    ∀ i < a.noutputs, ∀ j < a.ninputs, ∀ k < a.omega.length,
      a.fresp i j k = b.fresp i j k

instance (a b : FRD) : Decidable (a.equiv b) := by
  unfold FrequencyResponseData.equiv; infer_instance

/-- Extensional equality of eval results. -/
def RArr.equiv (a b : RArr) : Prop :=
  a.nout = b.nout ∧ a.nin = b.nin ∧ a.nfreq = b.nfreq ∧
    ∀ i < a.nout, ∀ j < a.nin, ∀ k < a.nfreq, a.dat i j k = b.dat i j k

instance (a b : RArr) : Decidable (a.equiv b) := by
  unfold RArr.equiv; infer_instance

/-- Equality of fallible FRD results up to `FrequencyResponseData.equiv`. -/
def EqE : Except Err FRD → Except Err FRD → Prop
  | .ok a, .ok b => a.equiv b
  | .error e, .error e' => e = e'
  | _, _ => False

instance (x y : Except Err FRD) : Decidable (EqE x y) := by
  unfold EqE
  match x, y with
  | .ok a, .ok b => infer_instance
  | .error e, .error e' => infer_instance
  | .ok _, .error _ => exact isFalse (fun h => h)
  | .error _, .ok _ => exact isFalse (fun h => h)

/-- The error of a fallible FRD result, if any. -/
def errE : Except Err FRD → Option Err
  | .error e => some e
  | .ok _ => none

/-- The error of a fallible eval result, if any. -/
def errR : Except Err RArr → Option Err
  | .error e => some e
  | .ok _ => none

/-- The smoothing flag of a successful FRD result. -/
def smoothOf (x : Except Err FRD) : Option Bool :=
  x.toOption.map (·.smooth)

/-- `FRD._epsw = 1e-8`, the bound for exact frequency match. -/
def epsw : ℚ := 1 / 100000000

/-- Payload of the explicit-data constructor path (`__init__`, lines
150-161): a 1-D response `d` is reshaped to `(1,1,F)`; `omega` is stored as
given, with no sorting and no sign check. -/
def mkData (d : List CQ) (w : List ℚ) (smooth : Bool) : FRD :=
  { noutputs := 1, ninputs := 1, omega := w,
    fresp := fun _ _ k => d.getD k 0, smooth := smooth }

/-- The explicit-data constructor (1-D case) including its shape check:
`fresp.shape[-1] != omega.shape[-1]` raises `TypeError`. -/
def dataFRD (d : List CQ) (w : List ℚ) (smooth : Bool) : Except Err FRD :=
  if d.length ≠ w.length then .error .shapeMismatch else .ok (mkData d w smooth)

/-- Payload of the 3-D explicit-data constructor path. -/
def mkData3 (p m : ℕ) (d : ℕ → ℕ → ℕ → CQ) (w : List ℚ) (smooth : Bool) :
    FRD :=
  ⟨p, m, w, d, smooth⟩

/-- The explicit-data constructor (3-D case); `F` plays the role of
`fresp.shape[-1]`. -/
def dataFRD3 (p m F : ℕ) (d : ℕ → ℕ → ℕ → CQ) (w : List ℚ) (smooth : Bool) :
    Except Err FRD :=
  if F ≠ w.length then .error .shapeMismatch else .ok (mkData3 p m d w smooth)

/-- Constructor path sampling an analytic LTI model (`__init__`, lines
138-147, continuous-time case): `omega` is sorted ascending, then the model
is evaluated at `s = jω`.  The analytic model lives in `lti.py`, which is
not under `src/`, so it is an abstract evaluation function `G` here. -/
def fromLTI (p m : ℕ) (G : CQ → ℕ → ℕ → CQ) (w : List ℚ) (smooth : Bool) :
    FRD :=
  let t := List.insertionSort (· ≤ ·) w
  { noutputs := p, ninputs := m, omega := t,
    fresp := fun i j k => G ⟨0, t.getD k 0⟩ i j, smooth := smooth }

/-- Copy-constructor path (`__init__`, lines 163-171): `omega` and `fresp`
are taken from the source object unchanged; the smoothing keyword is
processed anew (default `False`). -/
def copyFRD (f : FRD) (smooth : Bool) : FRD :=
  { noutputs := f.noutputs, ninputs := f.ninputs, omega := f.omega,
    fresp := f.fresp, smooth := smooth }

/-- `_convert_to_frd` (lines 719-727), FRD-operand branch: the target grid
is sorted, and the operand is returned unchanged exactly when the grid
lengths match and all points agree within `_epsw`; otherwise
`NotImplementedError` ("Frequency ranges of FRD do not match"). -/
def convert_to_frd (target : List ℚ) (sys : FRD) : Except Err FRD :=
  let t := List.insertionSort (· ≤ ·) target
  if t.length = sys.omega.length ∧
      ∀ k < t.length, |t.getD k 0 - sys.omega.getD k 0| < epsw
  then .ok sys else .error .gridMismatch

/-- `__neg__` (lines 278-281): `FRD(-self.fresp, self.omega)`.  The
smoothing flag is not forwarded, so the result is never smooth. -/
def fneg (f : FRD) : FRD :=
  { noutputs := f.noutputs, ninputs := f.ninputs, omega := f.omega,
    fresp := fun i j k => -(f.fresp i j k), smooth := false }

/-- `__add__` (lines 283-307).  The first component records whether the
"Frequency points do not match" warning was emitted; the result is
`FRD(self.fresp + other.fresp, other.omega)` with no smoothing keyword. -/
def fadd (a b : FRD) : Bool × Except Err FRD :=
  let warned := decide (b.omega.length ≠ a.omega.length) || decide (b.omega ≠ a.omega)
  match convert_to_frd a.omega b with
  | .error e => (warned, .error e)
  | .ok o =>
    if a.ninputs ≠ o.ninputs then
      (warned, .error (.sizeMismatchAddIn a.ninputs o.ninputs))
    else if a.noutputs ≠ o.noutputs then
      (warned, .error (.sizeMismatchAddOut a.noutputs o.noutputs))
    else
      (warned, .ok { noutputs := a.noutputs, ninputs := a.ninputs, omega := o.omega,
                     fresp := fun i j k => a.fresp i j k + o.fresp i j k,
                     smooth := false })

/-- `__sub__` (lines 314-317): `self + (-other)`. -/
def fsub (a b : FRD) : Bool × Except Err FRD := fadd a (fneg b)

/-- `__mul__` (lines 324-349), FRD-operand branch: per-frequency matrix
product, on `self.omega`, smooth only when both operands are smooth. -/
def fmul (a b : FRD) : Except Err FRD :=
  match convert_to_frd a.omega b with
  | .error e => .error e
  | .ok o =>
    if a.ninputs ≠ o.noutputs then .error (.sizeMismatchMul a.ninputs o.noutputs)
    else .ok { noutputs := a.noutputs, ninputs := o.ninputs, omega := a.omega,
               fresp := fun i j k =>
                 ∑ x ∈ Finset.range a.ninputs, a.fresp i x k * o.fresp x j k,
               smooth := a.smooth && o.smooth }

/-- `__truediv__` (lines 380-397), FRD-operand branch: SISO only,
elementwise division. -/
def fdiv (a b : FRD) : Except Err FRD :=
  match convert_to_frd a.omega b with
  | .error e => .error e
  | .ok o =>
    if 1 < a.ninputs ∨ 1 < a.noutputs ∨ 1 < o.ninputs ∨ 1 < o.noutputs then
      .error .sisoDiv
    else .ok { noutputs := a.noutputs, ninputs := a.ninputs, omega := a.omega,
               fresp := fun i j k => a.fresp i j k / o.fresp i j k,
               smooth := a.smooth && o.smooth }

/-- The "unity" FRD produced by `self**0` (lines 419-421): all-ones
response on the same grid, smoothing flag taken from `self`. -/
def unityS (f : FRD) : FRD :=
  ⟨f.noutputs, f.ninputs, f.omega, fun _ _ _ => 1, f.smooth⟩

/-- The all-ones FRD built inside the negative-power branch (line 425):
`FRD(ones(self.fresp.shape), self.omega)` — no smoothing keyword. -/
def unityNS (f : FRD) : FRD :=
  ⟨f.noutputs, f.ninputs, f.omega, fun _ _ _ => 1, false⟩

/-- `__pow__` for non-negative integer exponents (lines 419-423):
`self**0` is the unity FRD, `self**n = self * self**(n-1)`. -/
def powNat (f : FRD) : ℕ → Except Err FRD
  | 0 => .ok (unityS f)
  | n+1 => (powNat f n).bind (fun g => fmul f g)

/-- `__pow__` at exponent `-n` (lines 424-426):
`self**(-n) = (FRD(ones)/self) * self**(-n+1)`. -/
def powNegNat (f : FRD) : ℕ → Except Err FRD
  | 0 => .ok (unityS f)
  | n+1 => (powNegNat f n).bind
      (fun g => (fdiv (unityNS f) f).bind (fun inv => fmul inv g))

/-- A Python number handed to `__pow__`; `type(other) == int` is a tag
check, so a `float` exponent fails even when its value is integral. -/
inductive PyNum where
  | int (n : ℤ)
  | float (q : ℚ)

/-- `__pow__` (lines 416-426). -/
def fpow (f : FRD) : PyNum → Except Err FRD
  | .int n => if 0 ≤ n then powNat f n.toNat else powNegNat f n.natAbs
  | .float _ => .error .expInt

/-- Claim-side notion: `selfProd f m` is the series product of `m+1`
copies of `f` (the "(m+1)-fold series self-multiplication"). -/
def selfProd (f : FRD) : ℕ → Except Err FRD
  | 0 => .ok f
  | n+1 => (selfProd f n).bind (fun g => fmul f g)

/-- `FRD.eval` (lines 435-491) on a 1-D list of requested points.  The
spline evaluation of a smoothing FRD calls `scipy.interpolate.splev`
(external to the repository), abstracted as the parameter `splev`.  The
squeeze post-processing (`_process_frequency_response`, in `lti.py`, not
under `src/`) is not applied: the raw `(noutputs, ninputs, nfreq)` tensor
is returned. -/
def FrequencyResponseData.eval (splev : CQ → ℕ → ℕ → CQ) (f : FRD)
    (ws : List CQ) : Except Err RArr :=
  if ws.any (fun w => decide (0 < w.im)) then .error .realOmega
  else if f.smooth = false then
    let elements := (List.range f.omega.length).filter
      (fun k => decide ((⟨f.omega.getD k 0, 0⟩ : CQ) ∈ ws))
    if elements.length < ws.length then .error .notInList
    else .ok { nout := f.noutputs, nin := f.ninputs, nfreq := elements.length,
               dat := fun i j k => f.fresp i j (elements.getD k 0) }
  else
    .ok { nout := f.noutputs, nin := f.ninputs, nfreq := ws.length,
          dat := fun i j k => splev (ws.getD k 0) i j }

/-- `__call__` (lines 549-572) with an explicit 1-D list argument `s`:
reject any point with non-zero real part, else `eval` on imaginary parts. -/
def FrequencyResponseData.call (splev : CQ → ℕ → ℕ → CQ) (f : FRD)
    (s : List CQ) : Except Err RArr :=
  if s.any (fun z => decide (0 < |z.re|)) then .error .purelyImag
  else FrequencyResponseData.eval splev f (s.map (fun z => (⟨z.im, 0⟩ : CQ)))

/-- Modelled from the spec: `_process_frequency_response` (in `lti.py`, not
under `src/`) applies the squeeze policy — "if SISO and squeeze is not
explicitly False, collapse to shape matching the input's shape (scalar in →
scalar out)".  `evalScalar` is `eval` at one scalar frequency of a SISO
FRD, squeezed to the single complex value. -/
def evalScalar (splev : CQ → ℕ → ℕ → CQ) (f : FRD) (w : CQ) :
    Except Err CQ :=
  (FrequencyResponseData.eval splev f [w]).map (fun r => r.dat 0 0 0)

/-- Determinant by cofactor expansion along the first column: the
mathematical determinant underlying `numpy.linalg.inv`. -/
def detQ : {n : ℕ} → Matrix (Fin n) (Fin n) CQ → CQ
  | 0, _ => 1
  | n+1, A => ∑ i : Fin (n+1),
      (-1 : CQ) ^ (i : ℕ) * A i 0 * detQ (A.submatrix i.succAbove Fin.succ)

/-- Adjugate matrix: `adjQ A i j` is the `(j, i)` cofactor of `A`. -/
def adjQ : {n : ℕ} → Matrix (Fin n) (Fin n) CQ → Matrix (Fin n) (Fin n) CQ
  | 0, _ => 1
  | _+1, A => Matrix.of fun i j =>
      (-1 : CQ) ^ ((i : ℕ) + (j : ℕ)) * detQ (A.submatrix j.succAbove i.succAbove)

/-- `numpy.linalg.inv`: inverse as adjugate over determinant; `linalg.inv`
raises `LinAlgError` on a singular matrix, checked separately by callers. -/
def matInvQ {n : ℕ} (A : Matrix (Fin n) (Fin n) CQ) :
    Matrix (Fin n) (Fin n) CQ :=
  Matrix.of fun i j => (detQ A)⁻¹ * adjQ A i j

/-- `FRD.feedback` (lines 609-627): per-frequency `self @ inv(I +
other @ self)`.  The `sign` argument is accepted but nowhere used, exactly
as in the source. -/
def feedback (self other : FRD) (sign : ℤ) : Except Err FRD :=
  match convert_to_frd self.omega other with
  | .error e => .error e
  | .ok o =>
    if self.noutputs ≠ o.ninputs ∨ self.ninputs ≠ o.noutputs then
      .error .fbMismatch
    else
      let selfM : ℕ → Matrix (Fin self.noutputs) (Fin self.ninputs) CQ :=
        fun k => Matrix.of fun i j => self.fresp i j k
      let otherM : ℕ → Matrix (Fin self.ninputs) (Fin self.noutputs) CQ :=
        fun k => Matrix.of fun i j => o.fresp i j k
      let IAB : ℕ → Matrix (Fin self.ninputs) (Fin self.ninputs) CQ :=
        fun k => 1 + otherM k * selfM k
      if (List.range self.omega.length).any (fun k => decide (detQ (IAB k) = 0))
      then .error .singularMatrix
      else .ok { noutputs := self.noutputs, ninputs := self.ninputs,
                 omega := o.omega,
                 fresp := fun i j k =>
                   if h : i < self.noutputs ∧ j < self.ninputs then
                     (selfM k * matInvQ (IAB k)) ⟨i, h.1⟩ ⟨j, h.2⟩
                   else 0,
                 smooth := self.smooth }

/-!  Concrete fixtures used by the claim theorems below. -/

/-- Trivial stand-in for the external spline evaluator (irrelevant for
non-smooth FRDs, which never reach it). -/
def splev0 : CQ → ℕ → ℕ → CQ := fun _ _ _ => 0

/-- `frd([1.0, 1.0, 0.5], [1, 10, 100])` from the spec's concrete scenario. -/
def ex7 : FRD := mkData [⟨1,0⟩, ⟨1,0⟩, ⟨1/2,0⟩] [1, 10, 100] false

/-- SISO FRD with response `1` at `ω = 1`. -/
def exS : FRD := mkData [⟨1,0⟩] [1] false

/-- SISO FRD with response `2` at `ω = 1`. -/
def exO : FRD := mkData [⟨2,0⟩] [1] false

/-- `frd([1,2,3], [4,5,6])` from the spec's concrete scenario. -/
def exA4 : FRD := mkData [⟨1,0⟩, ⟨2,0⟩, ⟨3,0⟩] [4, 5, 6] false

/-- `frd([2,3,4], [5,6,7])` from the spec's concrete scenario. -/
def exB4 : FRD := mkData [⟨2,0⟩, ⟨3,0⟩, ⟨4,0⟩] [5, 6, 7] false

/-- A 2×2 MIMO FRD at a single frequency, response `[[1,0],[0,0]]`. -/
def ex6 : FRD := mkData3 2 2 (fun i j _ => if i = 0 ∧ j = 0 then 1 else 0) [1] false

/-- Smoothing-enabled SISO FRD on the grid `[1, 2]`. -/
def exA9 : FRD := mkData [⟨1,0⟩, ⟨2,0⟩] [1, 2] true

/-- Smoothing-enabled SISO FRD on the grid `[1, 2]`. -/
def exB9 : FRD := mkData [⟨3,0⟩, ⟨4,0⟩] [1, 2] true

/-- The pointwise inverse `FRD(ones)/f` appearing in the negative-power
branch of `__pow__`: exactly the payload produced by `fdiv (unityNS f) f`. -/
def invP (f : FRD) : FRD :=
  { noutputs := (unityNS f).noutputs, ninputs := (unityNS f).ninputs,
    omega := (unityNS f).omega,
    fresp := fun i j k => (unityNS f).fresp i j k / f.fresp i j k,
    smooth := (unityNS f).smooth && f.smooth }

/-!  Helper lemmas about the embedded operations. -/

theorem equiv_refl (a : FRD) : a.equiv a :=
  ⟨rfl, rfl, rfl, rfl, fun _ _ _ _ _ _ => rfl⟩

theorem equiv_trans {a b c : FRD} (h1 : a.equiv b) (h2 : b.equiv c) :
    a.equiv c := by
  obtain ⟨e1, e2, e3, e4, e5⟩ := h1
  obtain ⟨f1, f2, f3, f4, f5⟩ := h2
  refine ⟨e1.trans f1, e2.trans f2, e3.trans f3, e4.trans f4,
    fun i hi j hj k hk => ?_⟩
  rw [e5 i hi j hj k hk]
  exact f5 i (e1 ▸ hi) j (e2 ▸ hj) k (e3 ▸ hk)

theorem EqE_refl (x : Except Err FRD) : EqE x x := by
  cases x with
  | ok a => exact equiv_refl a
  | error e => rfl

theorem EqE_trans {x y z : Except Err FRD} (h1 : EqE x y) (h2 : EqE y z) :
    EqE x z := by
  cases x with
  | error e1 =>
    cases y with
    | error e2 =>
      cases z with
      | error e3 => exact h1.trans h2
      | ok c => exact h2.elim
    | ok b => exact h1.elim
  | ok a =>
    cases y with
    | error _ => exact h1.elim
    | ok b =>
      cases z with
      | error _ => exact h2.elim
      | ok c => exact equiv_trans h1 h2

theorem convert_to_frd_ok (t : List ℚ) (sys : FRD)
    (hs : List.Sorted (· ≤ ·) t) (hω : sys.omega = t) :
    convert_to_frd t sys = .ok sys := by
  simp only [convert_to_frd, hs.insertionSort_eq, hω]
  rw [if_pos]
  refine ⟨by simp, fun k _ => ?_⟩
  simp only [sub_self, abs_zero, epsw]
  norm_num

theorem convert_to_frd_err (t : List ℚ) (sys : FRD)
    (h : (List.insertionSort (· ≤ ·) t).length ≠ sys.omega.length ∨
      ∃ k < (List.insertionSort (· ≤ ·) t).length,
        epsw ≤ |(List.insertionSort (· ≤ ·) t).getD k 0 - sys.omega.getD k 0|) :
    convert_to_frd t sys = .error .gridMismatch := by
  simp only [convert_to_frd]
  rw [if_neg]
  rintro ⟨h1, h2⟩
  rcases h with h | ⟨k, hk, hge⟩
  · exact h h1
  · exact absurd (h2 k hk) (not_lt.mpr hge)

theorem fmul_eq (a b : FRD) (hs : List.Sorted (· ≤ ·) a.omega)
    (hω : b.omega = a.omega) (hd : a.ninputs = b.noutputs) :
    fmul a b = .ok ⟨a.noutputs, b.ninputs, a.omega,
      fun i j k => (∑ x ∈ Finset.range a.ninputs, a.fresp i x k * b.fresp x j k),
      a.smooth && b.smooth⟩ := by
  unfold fmul
  rw [convert_to_frd_ok a.omega b hs hω]
  simp [hd]

theorem fmul_err (a b : FRD) (hs : List.Sorted (· ≤ ·) a.omega)
    (hω : b.omega = a.omega) (hd : a.ninputs ≠ b.noutputs) :
    fmul a b = .error (.sizeMismatchMul a.ninputs b.noutputs) := by
  unfold fmul
  rw [convert_to_frd_ok a.omega b hs hω]
  simp [hd]

theorem fadd_snd_eq (a b : FRD) (hs : List.Sorted (· ≤ ·) a.omega)
    (hω : b.omega = a.omega) (hi : a.ninputs = b.ninputs)
    (ho : a.noutputs = b.noutputs) :
    (fadd a b).2 = .ok ⟨a.noutputs, a.ninputs, b.omega,
      fun i j k => a.fresp i j k + b.fresp i j k, false⟩ := by
  unfold fadd
  rw [convert_to_frd_ok a.omega b hs hω]
  simp [hi, ho]

theorem fdiv_unity (f : FRD) (hno : f.noutputs = 1) (hni : f.ninputs = 1)
    (hs : List.Sorted (· ≤ ·) f.omega) :
    fdiv (unityNS f) f = .ok (invP f) := by
  unfold fdiv
  rw [convert_to_frd_ok (unityNS f).omega f hs rfl]
  simp [unityNS, invP, hno, hni]

theorem fmul_equiv_right (a : FRD) {g1 g2 : FRD} (h : g1.equiv g2) :
    EqE (fmul a g1) (fmul a g2) := by
  obtain ⟨hno, hni, hω, hsm, hent⟩ := h
  by_cases hc : (List.insertionSort (· ≤ ·) a.omega).length = g1.omega.length ∧
      ∀ k < (List.insertionSort (· ≤ ·) a.omega).length,
        |(List.insertionSort (· ≤ ·) a.omega).getD k 0 - g1.omega.getD k 0| < epsw
  · have hc1 : convert_to_frd a.omega g1 = .ok g1 := by
      simp only [convert_to_frd]; exact if_pos hc
    have hc2 : convert_to_frd a.omega g2 = .ok g2 := by
      simp only [convert_to_frd]; rw [← hω]; exact if_pos hc
    by_cases hd : a.ninputs = g1.noutputs
    · simp only [fmul, hc1, hc2]
      rw [if_neg (not_not_intro hd), if_neg (not_not_intro (hd.trans hno))]
      refine ⟨rfl, hni, rfl, by rw [hsm], fun i hi j hj k hk => ?_⟩
      dsimp only
      refine Finset.sum_congr rfl fun x hx => ?_
      have hx' : x < g1.noutputs := hd ▸ Finset.mem_range.mp hx
      have hk' : k < g1.omega.length := by
        have hlen := hc.1
        rw [List.length_insertionSort] at hlen
        exact hlen ▸ hk
      rw [hent x hx' j hj k hk']
    · simp only [fmul, hc1, hc2]
      rw [if_pos hd, if_pos (fun he => hd (he.trans hno.symm))]
      show Err.sizeMismatchMul a.ninputs g1.noutputs =
        Err.sizeMismatchMul a.ninputs g2.noutputs
      rw [hno]
  · have hc1 : convert_to_frd a.omega g1 = .error .gridMismatch := by
      simp only [convert_to_frd]; exact if_neg hc
    have hc2 : convert_to_frd a.omega g2 = .error .gridMismatch := by
      simp only [convert_to_frd]; rw [← hω]; exact if_neg hc
    simp only [fmul, hc1, hc2]
    rfl

theorem EqE_bind_fmul (a : FRD) {X Y : Except Err FRD} (h : EqE X Y) :
    EqE (X.bind (fun g => fmul a g)) (Y.bind (fun g => fmul a g)) := by
  cases X with
  | error e =>
    cases Y with
    | error e' => exact h
    | ok b => exact h.elim
  | ok a' =>
    cases Y with
    | error _ => exact h.elim
    | ok b => exact fmul_equiv_right a h

theorem eval_notInList (sp : CQ → ℕ → ℕ → CQ) (g : FRD)
    (hsm : g.smooth = false) (w : ℚ) (hw : w ∉ g.omega) :
    FrequencyResponseData.eval sp g [(⟨w, 0⟩ : CQ)] = .error .notInList := by
  simp [FrequencyResponseData.eval, hsm]
  intro x hx
  rw [List.getElem?_eq_getElem hx, Option.getD_some]
  intro he
  exact hw (he ▸ List.getElem_mem hx)

theorem perm_any_eq {α : Type} {l₁ l₂ : List α} (h : l₁.Perm l₂)
    (f : α → Bool) : l₁.any f = l₂.any f := by
  induction h with
  | nil => rfl
  | cons x _ ih => simp [ih]
  | swap x y l => cases hx : f x <;> cases hy : f y <;> simp [hx, hy]
  | trans _ _ ih1 ih2 => exact ih1.trans ih2

/-!  Claim theorems. -/

/-- C1: the claim states `feedback(other, sign)` computes
`self * inv(I - sign*other*self)`, so the result for `sign = +1` should
differ from `sign = -1` whenever `other*self` is nonzero.  The code ignores
`sign` entirely: for `self = FRD([1],[1])`, `other = FRD([2],[1])` (so
`other*self = 2 ≠ 0`), both signs return the response `1/3`, the
negative-feedback closed loop `1/(1+2)`; the claimed `sign = +1` value is
`1/(1-2) = -1`. -/
theorem C1_feedback_ignores_sign :
    feedback exS exO 1 = feedback exS exO (-1) ∧
    (feedback exS exO 1).toOption.map (fun r => r.fresp 0 0 0) =
      some ⟨1/3, 0⟩ ∧
    (⟨1/3, 0⟩ : CQ) ≠ ⟨-1, 0⟩ :=
  ⟨rfl, by decide, by decide⟩

/-- C2 counterexample: the explicit-data constructor accepts the unsorted
frequency vector `[5, 4, 6]` and stores it exactly as given, so the
resulting FRD's `omega` is not sorted ascending, contrary to the claim
that ascending sort is enforced on every construction path. -/
theorem C2_cex_data_path_keeps_unsorted_omega :
    dataFRD [⟨1,0⟩, ⟨2,0⟩, ⟨3,0⟩] [5, 4, 6] false =
      .ok (mkData [⟨1,0⟩, ⟨2,0⟩, ⟨3,0⟩] [5, 4, 6] false) ∧
    ¬ List.Sorted (· ≤ ·) (mkData [⟨1,0⟩, ⟨2,0⟩, ⟨3,0⟩] [5, 4, 6] false).omega :=
  ⟨rfl, by decide⟩

/-- C2 amended: `omega` is sorted ascending only on the LTI-sampling
construction path; the explicit-data path stores the frequency vector
exactly as given (unsorted and negative entries included), and the copy
constructor copies the source's `omega` unchanged. -/
theorem C2_omega_sorted_only_in_lti_path :
    (∀ (p m : ℕ) (G : CQ → ℕ → ℕ → CQ) (w : List ℚ) (s : Bool),
      List.Sorted (· ≤ ·) (fromLTI p m G w s).omega) ∧
    (∀ (d : List CQ) (w : List ℚ) (s : Bool), (mkData d w s).omega = w) ∧
    (∀ (f : FRD) (s : Bool), (copyFRD f s).omega = f.omega) :=
  ⟨fun _ _ _ w _ => List.sorted_insertionSort _ w,
   fun _ _ _ => rfl, fun _ _ => rfl⟩

/-- C3: the claim states `eval` rejects any input with non-zero imaginary
part (positive or negative) with the "can only accept real-valued omega"
error.  The guard is `any(omega_array.imag > 0)`, so `10 - 1j` slips
through and the non-smooth lookup fails with the *not-in-list* error
instead, while `10 + 1j` is caught as claimed. -/
theorem C3_eval_guard_misses_negative_imag :
    errR (FrequencyResponseData.eval splev0 ex7 [⟨10, -1⟩]) =
      some .notInList ∧
    errR (FrequencyResponseData.eval splev0 ex7 [⟨10, 1⟩]) =
      some .realOmega ∧
    Err.notInList ≠ Err.realOmega := by decide

/-- C7: `frd([1.0, 1.0, 0.5], [1, 10, 100])` constructs a SISO FRD;
`eval(10)` (squeezed per the spec's squeeze policy) returns exactly `1.0`;
`eval(2)` fails with the not-in-list error. -/
theorem C7_concrete_eval_scenario :
    dataFRD [⟨1,0⟩, ⟨1,0⟩, ⟨1/2,0⟩] [1, 10, 100] false = .ok ex7 ∧
    (evalScalar splev0 ex7 ⟨10, 0⟩).toOption = some ⟨1, 0⟩ ∧
    errR (FrequencyResponseData.eval splev0 ex7 [⟨2, 0⟩]) = some .notInList :=
  ⟨rfl, by decide, by decide⟩

/-- C4: adding two FRDs whose grids differ beyond the `1e-8` pointwise
tolerance (different lengths included) fails with the grid-mismatch error,
and a warning precedes the failure whenever the grids differ at all. -/
theorem C4_add_grid_mismatch (a b : FRD)
    (h : (List.insertionSort (· ≤ ·) a.omega).length ≠ b.omega.length ∨
      ∃ k < (List.insertionSort (· ≤ ·) a.omega).length,
        epsw ≤ |(List.insertionSort (· ≤ ·) a.omega).getD k 0 - b.omega.getD k 0|) :
    errE (fadd a b).2 = some .gridMismatch ∧
      (a.omega ≠ b.omega → (fadd a b).1 = true) := by
  have hc := convert_to_frd_err a.omega b h
  constructor
  · simp [fadd, hc, errE]
  · intro hne
    have h2 : b.omega ≠ a.omega := Ne.symm hne
    simp [fadd, hc, h2]

/-- C4 witness: the concrete sum `frd([1,2,3],[4,5,6]) + frd([2,3,4],[5,6,7])`
fails with the grid-mismatch error, preceded by the warning. -/
theorem C4_witness_concrete_sum :
    errE (fadd exA4 exB4).2 = some .gridMismatch ∧ (fadd exA4 exB4).1 = true :=
  ⟨(C4_add_grid_mismatch exA4 exB4 (by decide)).1,
   (C4_add_grid_mismatch exA4 exB4 (by decide)).2 (by decide)⟩

/-- C5: for two FRDs on the same (sorted, per the data-model invariant)
grid with `self.ninputs = other.noutputs`, the product is an FRD on the
same grid whose slice at every frequency is the matrix product
`self.fresp[:,:,k] @ other.fresp[:,:,k]`, with shape
`(self.noutputs, other.ninputs, F)`; with mismatched counts it fails with
the size-mismatch error naming the counts on each side. -/
theorem C5_mul_per_frequency_product (a b : FRD)
    (hs : List.Sorted (· ≤ ·) a.omega) (hω : b.omega = a.omega) :
    (a.ninputs = b.noutputs →
      (fmul a b).toOption.map (·.noutputs) = some a.noutputs ∧
      (fmul a b).toOption.map (·.ninputs) = some b.ninputs ∧
      (fmul a b).toOption.map (·.omega) = some a.omega ∧
      ∀ k, (fmul a b).toOption.map
          (fun r => (Matrix.of fun (i : Fin a.noutputs) (j : Fin b.ninputs) =>
            r.fresp i j k)) =
        some ((Matrix.of fun (i : Fin a.noutputs) (x : Fin a.ninputs) =>
            a.fresp i x k) *
          (Matrix.of fun (x : Fin a.ninputs) (j : Fin b.ninputs) =>
            b.fresp x j k))) ∧
    (a.ninputs ≠ b.noutputs →
      fmul a b = .error (.sizeMismatchMul a.ninputs b.noutputs)) := by
  constructor
  · intro hd
    rw [fmul_eq a b hs hω hd]
    refine ⟨rfl, rfl, rfl, fun k => ?_⟩
    simp only [Except.toOption, Option.map]
    refine congrArg some ?_
    ext i j
    simp only [Matrix.of_apply, Matrix.mul_apply]
    rw [Finset.sum_range]
  · intro hd
    exact fmul_err a b hs hω hd

/-- C5 witness: `exS * exS` succeeds on the shared grid `[1]`, while
`exS * ex6` (1 input against 2 outputs) fails with the size-mismatch
error naming the counts 1 and 2. -/
theorem C5_witness :
    (fmul exS exS).toOption.map (·.omega) = some exS.omega ∧
    fmul exS ex6 = .error (.sizeMismatchMul 1 2) :=
  ⟨((C5_mul_per_frequency_product exS exS (by decide) rfl).1 rfl).2.2.1,
   (C5_mul_per_frequency_product exS ex6 (by decide) rfl).2 (by decide)⟩

/-- C8: calling an FRD succeeds only when every entry of `s` has zero real
part, in which case it equals `eval` on the imaginary parts; any entry
with non-zero real part fails with the purely-imaginary error. -/
theorem C8_call_purely_imaginary (sp : CQ → ℕ → ℕ → CQ) (f : FRD)
    (s : List CQ) :
    ((∀ z ∈ s, z.re = 0) →
      FrequencyResponseData.call sp f s =
        FrequencyResponseData.eval sp f (s.map (fun z => (⟨z.im, 0⟩ : CQ)))) ∧
    ((∃ z ∈ s, z.re ≠ 0) →
      FrequencyResponseData.call sp f s = .error .purelyImag) := by
  constructor
  · intro hz
    have hc : ¬ (s.any (fun z => decide (0 < |z.re|)) = true) := by
      simp only [List.any_eq_true, decide_eq_true_eq]
      rintro ⟨z, hzs, hlt⟩
      rw [hz z hzs] at hlt
      simp at hlt
    unfold FrequencyResponseData.call
    rw [if_neg hc]
  · rintro ⟨z, hzs, hzre⟩
    unfold FrequencyResponseData.call
    rw [if_pos]
    refine List.any_eq_true.mpr ⟨z, hzs, ?_⟩
    simp [abs_pos, hzre]

/-- C8 witness: the purely imaginary point `5j` is converted to
`eval(5.0)`, and the point `1 + 5j` is rejected. -/
theorem C8_witness :
    FrequencyResponseData.call splev0 ex7 [⟨0, 5⟩] =
      FrequencyResponseData.eval splev0 ex7
        ([(⟨0, 5⟩ : CQ)].map (fun z => (⟨z.im, 0⟩ : CQ))) ∧
    FrequencyResponseData.call splev0 ex7 [⟨1, 5⟩] = .error .purelyImag :=
  ⟨(C8_call_purely_imaginary splev0 ex7 [⟨0, 5⟩]).1 (by decide),
   (C8_call_purely_imaginary splev0 ex7 [⟨1, 5⟩]).2 (by decide)⟩

/-- C9: the sum (and difference) of two smoothing-enabled FRDs carries no
interpolant state — its `smooth` flag is `false` and evaluating it at a
frequency outside the stored grid fails with the not-in-list error —
whereas the product of two smooth FRDs is smooth. -/
theorem C9_add_result_never_smooth (a b : FRD)
    (hs : List.Sorted (· ≤ ·) a.omega) (hω : b.omega = a.omega)
    (hi : a.ninputs = b.ninputs) (ho : a.noutputs = b.noutputs)
    (hsa : a.smooth = true) (hsb : b.smooth = true) :
    smoothOf (fadd a b).2 = some false ∧
    smoothOf (fsub a b).2 = some false ∧
    (∀ (sp : CQ → ℕ → ℕ → CQ) (w : ℚ), w ∉ b.omega →
      (fadd a b).2.toOption.map
        (fun r => errR (FrequencyResponseData.eval sp r [(⟨w, 0⟩ : CQ)])) =
        some (some .notInList)) ∧
    (a.ninputs = b.noutputs → smoothOf (fmul a b) = some true) := by
  have hadd := fadd_snd_eq a b hs hω hi ho
  refine ⟨?_, ?_, ?_, ?_⟩
  · rw [hadd]; rfl
  · have hsub := fadd_snd_eq a (fneg b) hs hω hi ho
    unfold fsub
    rw [hsub]; rfl
  · intro sp w hw
    rw [hadd]
    simp only [Except.toOption, Option.map]
    rw [eval_notInList sp
      ⟨a.noutputs, a.ninputs, b.omega,
        fun i j k => a.fresp i j k + b.fresp i j k, false⟩ rfl w hw]
    rfl
  · intro hd
    rw [fmul_eq a b hs hω hd]
    simp [smoothOf, Except.toOption, hsa, hsb]

/-- C9 witness: with both operands built with `smooth=True` on the grid
`[1, 2]`, the sum is non-smooth and its `eval(5)` fails with the
not-in-list error, while the product is smooth. -/
theorem C9_witness :
    smoothOf (fadd exA9 exB9).2 = some false ∧
    (fadd exA9 exB9).2.toOption.map
      (fun r => errR (FrequencyResponseData.eval splev0 r [(⟨5, 0⟩ : CQ)])) =
      some (some .notInList) ∧
    smoothOf (fmul exA9 exB9) = some true := by
  have h := C9_add_result_never_smooth exA9 exB9 (by decide) rfl rfl rfl rfl rfl
  exact ⟨h.1, h.2.2.1 splev0 5 (by decide), h.2.2.2 rfl⟩

/-- C10: for a non-smooth FRD, `eval` on a list of distinct in-grid
frequencies selects by a membership mask over the stored `omega`, so any
permutation of the request yields the identical result array. -/
theorem C10_eval_mask_perm_invariant (sp : CQ → ℕ → ℕ → CQ) (f : FRD)
    (hsm : f.smooth = false) (ws1 ws2 : List CQ)
    (hp : ws1.Perm ws2) (hnd : ws1.Nodup)
    (hmem : ∀ w ∈ ws1, w.im = 0 ∧ w.re ∈ f.omega) :
    FrequencyResponseData.eval sp f ws1 =
      FrequencyResponseData.eval sp f ws2 := by
  have hany := perm_any_eq hp (fun w => decide (0 < w.im))
  have hlen := hp.length_eq
  have hfil : (List.range f.omega.length).filter
      (fun k => decide ((⟨f.omega.getD k 0, 0⟩ : CQ) ∈ ws1)) =
      (List.range f.omega.length).filter
      (fun k => decide ((⟨f.omega.getD k 0, 0⟩ : CQ) ∈ ws2)) := by
    refine List.filter_congr fun k _ => ?_
    exact decide_eq_decide.mpr hp.mem_iff
  unfold FrequencyResponseData.eval
  rw [hany, hfil, hlen]
  simp [hsm]

/-- C10 witness: the request `[1, 10]` and its permutation `[10, 1]`
produce the same eval result on `ex7`. -/
theorem C10_witness :
    FrequencyResponseData.eval splev0 ex7 [⟨1, 0⟩, ⟨10, 0⟩] =
      FrequencyResponseData.eval splev0 ex7 [⟨10, 0⟩, ⟨1, 0⟩] :=
  C10_eval_mask_perm_invariant splev0 ex7 rfl _ _
    (by decide) (by decide) (by decide)

/-- C6 counterexample: for the 2×2 MIMO FRD `ex6`, `f**1` is NOT the
1-fold self-product `f`: the recursion bottoms out at the ALL-ONES
response (not the identity), so `f**1 = f @ ones ≠ f`. -/
theorem C6_cex_mimo_pow_one : ¬ EqE (fpow ex6 (.int 1)) (.ok ex6) := by
  decide

/-- C6 amended: `f**0` is the all-ones response on the same grid and any
float exponent fails, for every FRD; for SISO `f` with sorted grid,
`f**n` for `n > 0` equals the n-fold series self-multiplication of `f`,
and `f**(-n)` equals the n-fold self-multiplication of the pointwise
inverse `ones/f`.  (For MIMO `f` the `n > 0` clause fails, see the
counterexample.) -/
theorem C6_pow_laws (f : FRD) :
    EqE (fpow f (.int 0)) (.ok (unityS f)) ∧
    (∀ q : ℚ, fpow f (.float q) = .error .expInt) ∧
    (f.noutputs = 1 → f.ninputs = 1 → List.Sorted (· ≤ ·) f.omega →
      (∀ m : ℕ, EqE (fpow f (.int ((m : ℤ) + 1))) (selfProd f m)) ∧
      (∀ m : ℕ, ∀ g : FRD, fdiv (unityNS f) f = .ok g →
        EqE (fpow f (.int (-((m : ℤ) + 1)))) (selfProd g m))) := by
  refine ⟨EqE_refl (.ok (unityS f)), fun q => rfl, fun hno hni hs => ?_⟩
  constructor
  · have key : ∀ m : ℕ, EqE (powNat f (m + 1)) (selfProd f m) := by
      intro m
      induction m with
      | zero =>
        show EqE (fmul f (unityS f)) (.ok f)
        rw [fmul_eq f (unityS f) hs rfl (hni.trans hno.symm)]
        refine ⟨rfl, rfl, rfl, Bool.and_self f.smooth,
          fun i hi j hj k hk => ?_⟩
        simp only [unityS] at hj ⊢
        rw [hni] at hj
        obtain rfl := Nat.lt_one_iff.mp hj
        rw [hni, Finset.sum_range_one, mul_one]
      | succ m ih =>
        show EqE ((powNat f (m + 1)).bind (fun g => fmul f g))
          ((selfProd f m).bind (fun g => fmul f g))
        exact EqE_bind_fmul f ih
    intro m
    have h1 : (0 : ℤ) ≤ (m : ℤ) + 1 := by omega
    have h2 : ((m : ℤ) + 1).toNat = m + 1 := by omega
    have hfp : fpow f (.int ((m : ℤ) + 1)) = powNat f (m + 1) := by
      simp [fpow, h1, h2]
    rw [hfp]
    exact key m
  · intro m g hg
    have hP := fdiv_unity f hno hni hs
    rw [hP] at hg
    obtain rfl : invP f = g := Except.ok.inj hg
    have key : ∀ m : ℕ, EqE (powNegNat f (m + 1)) (selfProd (invP f) m) := by
      intro m
      induction m with
      | zero =>
        show EqE ((fdiv (unityNS f) f).bind (fun inv => fmul inv (unityS f)))
          (.ok (invP f))
        rw [hP]
        show EqE (fmul (invP f) (unityS f)) (.ok (invP f))
        rw [fmul_eq (invP f) (unityS f) hs rfl
          (by simp only [invP, unityS, unityNS]; rw [hni, hno])]
        refine ⟨rfl, rfl, rfl, rfl, fun i hi j hj k hk => ?_⟩
        simp only [invP, unityS, unityNS] at hj ⊢
        rw [hni] at hj
        obtain rfl := Nat.lt_one_iff.mp hj
        rw [hni, Finset.sum_range_one, mul_one]
      | succ m ih =>
        show EqE ((powNegNat f (m + 1)).bind
            (fun h => (fdiv (unityNS f) f).bind (fun inv => fmul inv h)))
          ((selfProd (invP f) m).bind (fun h => fmul (invP f) h))
        have hstep : (fun (h : FRD) =>
            (fdiv (unityNS f) f).bind (fun inv => fmul inv h)) =
            (fun h => fmul (invP f) h) := by
          funext h
          rw [hP]
          rfl
        rw [hstep]
        exact EqE_bind_fmul (invP f) ih
    have h1 : ¬ (0 : ℤ) ≤ -((m : ℤ) + 1) := by omega
    have h2 : (-((m : ℤ) + 1)).natAbs = m + 1 := by omega
    have hfp : fpow f (.int (-((m : ℤ) + 1))) = powNegNat f (m + 1) := by
      show (if (0 : ℤ) ≤ -((m : ℤ) + 1) then powNat f (-((m : ℤ) + 1)).toNat
        else powNegNat f (-((m : ℤ) + 1)).natAbs) = powNegNat f (m + 1)
      rw [if_neg h1, h2]
    rw [hfp]
    exact key m

/-- C6 witness: for the SISO FRD `ex7`, `f**2` equals the 2-fold series
self-product and `f**(-1)` equals the pointwise inverse `ones/f`. -/
theorem C6_witness :
    EqE (fpow ex7 (.int 2)) (selfProd ex7 1) ∧
    EqE (fpow ex7 (.int (-1))) (selfProd (invP ex7) 0) := by
  have h3 := (C6_pow_laws ex7).2.2 rfl rfl (by decide)
  exact ⟨h3.1 1, h3.2 0 (invP ex7) rfl⟩

end Control
